import Mathlib

/-!
A verification development for a small Lisp interpreter written in Rust
(files `src/data.rs`, `src/parser.rs`, `src/eval.rs`).  Every definition in
this file is a shallow embedding of the corresponding Rust item; comments
name the Rust function each definition models.

Modelling conventions:
* Rust `String` values that are manipulated character by character
  (tokenizer input, token text, symbol and string contents) are modelled as
  `List Char`, abbreviated `Str`.  Error messages, which are only ever
  constructed and compared as wholes, are modelled as Lean `String`.
* Rust `f64` is modelled by `F`, an exact fraction of integers.  The
  interpreter's numeric control flow (zero tests, comparisons, folds) is
  preserved exactly on fractions; IEEE-754 rounding, infinities and NaN are
  outside the model (no claim depends on them).  `F` is deliberately left
  unnormalized so that every operation is kernel-computable.
* The evaluator in `eval.rs` can recurse through a `Func` body, which is not
  structurally smaller, so the embedded evaluator takes a fuel parameter and
  returns a distinguished `timeout` outcome when fuel runs out; claims are
  stated for outcomes other than `timeout`.  The parser's
  `read_from_tokens` is fueled the same way, with fuel chosen large enough
  (proved where needed) for the token lists the claims are about.
* Rust's `HashMap<String, Expr>` environment is modelled as an association
  list where insertion prepends and lookup takes the first match, which has
  exactly the observable get/insert behavior of the hash map.
-/

namespace MiniLisp

/-- Characters of a Rust `String`, for text handled character by character. -/
abbrev Str := List Char

/-! ## Numbers: the model of `f64`

An exact, unnormalized fraction.  The interpreter only ever adds,
subtracts, multiplies, divides, negates, compares and zero-tests numbers,
and all of those are modelled here without normalization so that the
kernel can evaluate them.  The denominator may become negative through
division; `F.lt` is written to be correct for any denominator sign. -/

structure F where
  num : Int
  den : Int
deriving DecidableEq

/-- Embed an integer literal. -/
def F.int (n : Int) : F := ⟨n, 1⟩

instance (n : Nat) : OfNat F n := ⟨⟨n, 1⟩⟩

/-- Model of `f64` addition. -/
def F.add (a b : F) : F := ⟨a.num * b.den + b.num * a.den, a.den * b.den⟩

/-- Model of `f64` subtraction. -/
def F.sub (a b : F) : F := ⟨a.num * b.den - b.num * a.den, a.den * b.den⟩

/-- Model of `f64` multiplication. -/
def F.mul (a b : F) : F := ⟨a.num * b.num, a.den * b.den⟩

/-- Model of `f64` division (the interpreter only divides by values it has
checked to be nonzero). -/
def F.div (a b : F) : F := ⟨a.num * b.den, a.den * b.num⟩

/-- Model of `f64` negation. -/
def F.neg (a : F) : F := ⟨-a.num, a.den⟩

/-- Model of the `f64` test `x == 0.0` (the sign of the denominator is
irrelevant). -/
def F.isZero (a : F) : Bool := a.num = 0

/-- Model of `f64` strict order `a < b`: cross-multiplication made
sign-robust by scaling both sides with the square-positive product of the
denominators. -/
def F.lt (a b : F) : Bool :=
  a.num * b.den * (a.den * b.den) < b.num * a.den * (a.den * b.den)

/-! ## The expression type: model of `enum Expr` in `data.rs` -/

/-- Model of `data.rs` `Expr`: `Symbol`, `Number`, `Bool`, `String`,
`List`, `Func { params, body }`. -/
inductive Expr where
  | symbol (s : Str)
  | number (n : F)
  | bool (b : Bool)
  | str (s : Str)
  | list (xs : List Expr)
  | func (params : List Str) (body : Expr)

mutual

/-- Boolean structural equality on `Expr` (model of `#[derive(PartialEq)]`,
which on this enum is structural; on `Number` it is exact equality of the
stored value). -/
def ebeq : Expr → Expr → Bool
  | .symbol a, .symbol b => a == b
  | .number a, .number b => decide (a = b)
  | .bool a, .bool b => a == b
  | .str a, .str b => a == b
  | .list a, .list b => ebeqList a b
  | .func p a, .func q b => p == q && ebeq a b
  | _, _ => false

/-- Pointwise `ebeq` on lists of expressions. -/
def ebeqList : List Expr → List Expr → Bool
  | [], [] => true
  | a :: as', b :: bs' => ebeq a b && ebeqList as' bs'
  | _, _ => false

end

mutual

theorem ebeq_iff : ∀ a b : Expr, ebeq a b = true ↔ a = b
  | .symbol s, b => by cases b <;> simp [ebeq]
  | .number n, b => by cases b <;> simp [ebeq]
  | .bool v, b => by cases b <;> simp [ebeq]
  | .str s, b => by cases b <;> simp [ebeq]
  | .list xs, b => by
      cases b with
      | list ys => simp [ebeq, ebeqList_iff xs ys]
      | symbol s => simp [ebeq]
      | number m => simp [ebeq]
      | bool w => simp [ebeq]
      | str t => simp [ebeq]
      | func q c => simp [ebeq]
  | .func p a, b => by
      cases b with
      | func q c => simp [ebeq, ebeq_iff a c]
      | symbol s => simp [ebeq]
      | number m => simp [ebeq]
      | bool w => simp [ebeq]
      | str t => simp [ebeq]
      | list ys => simp [ebeq]

theorem ebeqList_iff : ∀ as' bs' : List Expr, ebeqList as' bs' = true ↔ as' = bs'
  | [], [] => by simp [ebeqList]
  | [], _ :: _ => by simp [ebeqList]
  | _ :: _, [] => by simp [ebeqList]
  | a :: as', b :: bs' => by
      simp [ebeqList, ebeq_iff a b, ebeqList_iff as' bs']

end

instance : DecidableEq Expr := fun a b => decidable_of_iff _ (ebeq_iff a b)

instance {ε α : Type} [DecidableEq ε] [DecidableEq α] : DecidableEq (Except ε α) :=
  fun a b =>
    match a, b with
    | .ok x, .ok y => decidable_of_iff (x = y) (by simp)
    | .error x, .error y => decidable_of_iff (x = y) (by simp)
    | .ok _, .error _ => isFalse (by simp)
    | .error _, .ok _ => isFalse (by simp)

/-! ## Tokenizer: model of `tokenize` in `parser.rs`

The Rust function is one scan loop with two inner collection loops (string
contents, symbol characters).  The inner loops are modelled as the mutually
recursive functions `tokStr` and `tokSym`; when `tokSym` meets a stop
character it emits its token and handles the stop character exactly as the
outer loop would (Rust instead breaks and lets the outer loop re-inspect
the character — the emitted tokens are identical). -/

/-- The quote-wrapped string token `format!("\"{}\"", s)`. -/
def quoted (s : Str) : Str := '"' :: (s ++ ['"'])

mutual

/-- Model of the main scan loop of `tokenize`. -/
def tokMain : List Char → List Str
  | [] => []
  | c :: cs =>
    if c = '(' ∨ c = ')' then [c] :: tokMain cs
    else if c = '"' then tokStr cs []
    else if c.isWhitespace then tokMain cs
    else tokSym cs [c]

/-- Model of the string-collection loop: `acc` holds the characters
collected after the opening quote.  At end of input the token is emitted
anyway (silently unterminated); a closing quote is consumed. -/
def tokStr : List Char → Str → List Str
  | [], acc => [quoted acc]
  | c :: cs, acc =>
    if c = '"' then quoted acc :: tokMain cs
    else tokStr cs (acc ++ [c])

/-- Model of the symbol-collection loop: collects until whitespace or a
parenthesis (a quote character does NOT stop a symbol token, as in Rust). -/
def tokSym : List Char → Str → List Str
  | [], acc => [acc]
  | c :: cs, acc =>
    if c = '(' ∨ c = ')' then acc :: [c] :: tokMain cs
    else if c.isWhitespace then acc :: tokMain cs
    else tokSym cs (acc ++ [c])

end

/-- Model of `tokenize` in `parser.rs`. -/
def tokenize (input : Str) : List Str := tokMain input

/-! ## Number literals: models of `str::parse::<f64>` and `f64::to_string`

These are Rust standard-library functions, not repository code; they are
modelled to the extent the claims need.  `parseNum?` implements the exact
grammar Rust documents for finite floats; `specialFloatToken` recognizes
the non-finite spellings (`inf`, `infinity`, `nan`) that the fraction
model cannot represent. -/

/-- Value of a digit run, `0` for the empty run. -/
def digitsVal (s : Str) : Nat :=
  s.foldl (fun acc c => 10 * acc + (c.toNat - '0'.toNat)) 0

/-- Value of a nonempty all-digit run. -/
def digitsVal? (s : Str) : Option Nat :=
  if s ≠ [] ∧ s.all Char.isDigit then some (digitsVal s) else none

/-- Split at the first character satisfying `p`: the part before it and,
when present, the part after it. -/
def splitAtFirst (p : Char → Bool) : Str → Str × Option Str
  | [] => ([], none)
  | c :: cs =>
    if p c then ([], some cs)
    else
      let r := splitAtFirst p cs
      (c :: r.1, r.2)

/-- Strip one leading sign, returning `-1` or `1`. -/
def stripSign : Str → Int × Str
  | '-' :: r => (-1, r)
  | '+' :: r => (1, r)
  | s => (1, s)

/-- Mantissa grammar of Rust float parsing — `digits`, `digits '.' digits?`
or `'.' digits` — returned as numerator and decimal denominator. -/
def parseMant? (s : Str) : Option (Nat × Nat) :=
  match splitAtFirst (fun c => c = '.') s with
  | (intPart, none) => (digitsVal? intPart).map fun n => (n, 1)
  | (intPart, some fracPart) =>
    if (intPart ≠ [] ∨ fracPart ≠ []) ∧
        intPart.all Char.isDigit ∧ fracPart.all Char.isDigit then
      some (digitsVal intPart * 10 ^ fracPart.length + digitsVal fracPart,
            10 ^ fracPart.length)
    else none

/-- Model of `str::parse::<f64>` restricted to finite values: grammar
`sign? (digits | digits '.' digits? | '.' digits) (('e'|'E') sign? digits)?`. -/
def parseNum? (t : Str) : Option F :=
  let s1 := stripSign t
  match splitAtFirst (fun c => c = 'e' ∨ c = 'E') s1.2 with
  | (mant, none) => (parseMant? mant).map fun m => ⟨s1.1 * (m.1 : Int), (m.2 : Int)⟩
  | (mant, some expPart) =>
    match parseMant? mant with
    | none => none
    | some m =>
      let s2 := stripSign expPart
      match digitsVal? s2.2 with
      | none => none
      | some k =>
        if s2.1 = 1 then some ⟨s1.1 * ((m.1 * 10 ^ k : Nat) : Int), (m.2 : Int)⟩
        else some ⟨s1.1 * (m.1 : Int), ((m.2 * 10 ^ k : Nat) : Int)⟩

/-- The non-finite spellings Rust's float parser also accepts
(case-insensitive, after an optional sign). -/
def specialFloatToken (t : Str) : Bool :=
  let low := (stripSign t).2.map Char.toLower
  low = "inf".data ∨ low = "infinity".data ∨ low = "nan".data

/-- Multiplicity of `p` in `n` (fuel-bounded division loop). -/
def multOf (p : Nat) : Nat → Nat → Nat
  | 0, _ => 0
  | fuel + 1, n => if n % p = 0 ∧ n ≠ 0 ∧ 1 < p then multOf p fuel (n / p) + 1 else 0

/-- Decimal digit string of a natural number. -/
def natStr (n : Nat) : Str := (toString n).data

/-- Decimal digit string of an integer (minus sign as in Rust). -/
def intStr (n : Int) : Str := (toString n).data

/-- Model of the `f64` rendering `n.to_string()`.  Rust prints the shortest
decimal that reparses to the same value; the model prints the exact decimal
expansion of the fraction (fractions whose denominator is not of the form
`2^a * 5^b` are not `f64` values and get a placeholder).  Claims depending
on number round-trips carry the round-trip as an explicit, concretely
discharged hypothesis, so only the round-trip behavior of this rendering is
relied on, never its exact text. -/
def renderNum (q : F) : Str :=
  let sg : Int := if q.den < 0 then -1 else 1
  let n : Int := sg * q.num
  let d : Int := sg * q.den
  if d = 1 then intStr n
  else if d ≤ 0 then "?".data
  else
    let dn : Nat := d.toNat
    let a := multOf 2 dn dn
    let b := multOf 5 dn dn
    if 2 ^ a * 5 ^ b = dn then
      let k := max a b
      let scaled : Int := n * (((10 ^ k : Nat) / dn : Nat) : Int)
      let digits := natStr scaled.natAbs
      let padded : Str := List.replicate (k + 1 - digits.length) '0' ++ digits
      let intPart := padded.take (padded.length - k)
      let fracPart := padded.drop (padded.length - k)
      (if scaled < 0 then ['-'] else []) ++ intPart ++ '.' :: fracPart
    else "?".data

/-! ## `atom` and `Display` -/

/-- Model of `atom` in `parser.rs`.  Rust slices `token[1..len-1]` for a
quote-delimited token; on the one-character token `"` (which `tokenize`
never produces) Rust would panic where the model returns `String("")`.
A token Rust would parse as a non-finite float (see `specialFloatToken`)
becomes a symbol here; no claim touches such tokens. -/
def atom (t : Str) : Expr :=
  if t.head? = some '"' ∧ t.getLast? = some '"' then .str (t.drop 1).dropLast
  else if t = "true".data then .bool true
  else if t = "false".data then .bool false
  else
    match parseNum? t with
    | some q => .number q
    | none => .symbol t

/-- Single-space join used by `Display` for lists (`xs.join(" ")`). -/
def joinSpace : List Str → Str
  | [] => []
  | [x] => x
  | x :: xs => x ++ ' ' :: joinSpace xs

mutual

/-- Model of `impl fmt::Display for Expr` in `data.rs`. -/
def display : Expr → Str
  | .symbol s => s
  | .number n => renderNum n
  | .bool b => if b then "true".data else "false".data
  | .str s => '"' :: (s ++ ['"'])
  | .list xs => '(' :: (joinSpace (displayList xs) ++ [')'])
  | .func _ _ => "<function>".data

/-- `display` mapped over a list (the `list.iter().map(to_string)`). -/
def displayList : List Expr → List Str
  | [] => []
  | x :: xs => display x :: displayList xs

end

/-! ## Parser: models of `read_from_tokens` and `parse` in `parser.rs` -/

/-- Artifact message produced only when the fuel given to the embedded
`read_from_tokens` runs out; `parse` supplies more fuel than the claims'
token lists can consume, so no claim observes this message. -/
def fuelMsg : String := "model: parser fuel exhausted"

mutual

/-- Model of `read_from_tokens` (fuel added; see `fuelMsg`). -/
def readFrom : Nat → List Str → Except String (Expr × List Str)
  | 0, _ => .error fuelMsg
  | _ + 1, [] => .error "Unexpected EOF"
  | n + 1, t :: ts =>
    if t = ['('] then
      match readList n ts with
      | .ok p => .ok (.list p.1, p.2)
      | .error m => .error m
    else if t = [')'] then .error "Unexpected closing parenthesis."
    else .ok (atom t, ts)

/-- Model of the sub-expression loop inside the `"("` arm of
`read_from_tokens`, including the final consumption of `")"`. -/
def readList : Nat → List Str → Except String (List Expr × List Str)
  | 0, _ => .error fuelMsg
  | _ + 1, [] => .error "Missing closing parenthesis."
  | n + 1, t :: ts =>
    if t = [')'] then .ok ([], ts)
    else
      match readFrom n (t :: ts) with
      | .error m => .error m
      | .ok p =>
        match readList n p.2 with
        | .error m => .error m
        | .ok r => .ok (p.1 :: r.1, r.2)

end

/-- Model of `parse` in `parser.rs`.  The fuel strictly exceeds what the
fueled `read_from_tokens` consumes on every token list a claim mentions. -/
def parse (input : Str) : Except String Expr :=
  match readFrom (2 * (tokenize input).length + 2) (tokenize input) with
  | .error m => .error m
  | .ok p =>
    if p.2 = [] then .ok p.1
    else .error "Unexpected tokens after main expression."

/-! ## Environment: model of `type Env = HashMap<String, Expr>` in `data.rs` -/

/-- Association-list model of the environment. -/
abbrev Env := List (Str × Expr)

/-- Model of `HashMap::get`: the first match wins. -/
def envGet : Env → Str → Option Expr
  | [], _ => none
  | (k, v) :: r, s => if k = s then some v else envGet r s

/-- Model of `HashMap::insert`: prepending makes the new binding shadow any
older one, which is observationally the hash map's overwrite. -/
def envInsert (env : Env) (k : Str) (v : Expr) : Env := (k, v) :: env

/-! ## Built-in operators: model of `apply_builtin_op` in `eval.rs` -/

/-- The sentinel message meaning "not a built-in name". -/
def notBuiltinMsg : String := "Not a built-in operator"

/-- `format!("Operator '{}' requires number arguments.", op)`. -/
def numArgsMsg (op : Str) : String :=
  "Operator '" ++ String.mk op ++ "' requires number arguments."

/-- Model of the number-collecting `map`/`collect` used by `numeric_op`,
`-` and `/`: every argument must be a number, first failure wins. -/
def toNums (op : Str) : List Expr → Except String (List F)
  | [] => .ok []
  | .number n :: rest => (toNums op rest).map (n :: ·)
  | _ :: _ => .error (numArgsMsg op)

/-- Model of the closure `numeric_op` in `apply_builtin_op` (only ever
invoked for `+` and `*`, so its emptiness guard is dead there, but it is
kept for fidelity). -/
def numericOp (op : Str) (f : F → F → F) (start : F) (args : List Expr) :
    Except String Expr :=
  match toNums op args with
  | .error m => .error m
  | .ok nums =>
    if op ≠ "+".data ∧ op ≠ "*".data ∧ nums = [] then
      .error ("Operator '" ++ String.mk op ++ "' requires at least one argument.")
    else .ok (.number (nums.foldl f start))

/-- Model of the string-collecting `map`/`collect` used by `concat`. -/
def toStrs : List Expr → Except String (List Str)
  | [] => .ok []
  | .str s :: rest => (toStrs rest).map (s :: ·)
  | _ :: _ => .error "'concat' requires string arguments."

/-- The predicate of the `/` guard: is this argument a number equal to
zero?  (A non-number argument does not trigger the guard.) -/
def zeroArg (a : Expr) : Bool :=
  match a with
  | .number n => n.isZero
  | _ => false

/-- Model of `apply_builtin_op` in `eval.rs`.  Note the order inside the
`/` arm: the zero test over the trailing arguments runs before the
arguments are checked to be numbers, exactly as in the source. -/
def applyBuiltinOp (op : Str) (args : List Expr) : Except String Expr :=
  if op = "+".data then numericOp op F.add ⟨0, 1⟩ args
  else if op = "*".data then numericOp op F.mul ⟨1, 1⟩ args
  else if op = "-".data then
    match toNums op args with
    | .error m => .error m
    | .ok [] => .error "Operator '-' requires at least one argument."
    | .ok [n] => .ok (.number n.neg)
    | .ok (n :: rest) => .ok (.number (rest.foldl F.sub n))
  else if op = "/".data then
    if (args.drop 1).any zeroArg
    then .error "Division by zero."
    else
      match toNums op args with
      | .error m => .error m
      | .ok [] => .error "Operator '/' requires at least one argument."
      | .ok (n :: rest) => .ok (.number (rest.foldl F.div n))
  else if op = ">".data then
    if args.length ≠ 2 then .error "'>' requires two arguments."
    else
      match args with
      | [.number n1, .number n2] => .ok (.bool (F.lt n2 n1))
      | _ => .error "'>' requires number arguments."
  else if op = "concat".data then
    match toStrs args with
    | .error m => .error m
    | .ok ss => .ok (.str ss.flatten)
  else .error notBuiltinMsg

/-! ## The evaluator: models of `eval` and its helpers in `eval.rs`

Rust's evaluator recurses through `Func` bodies, which are not structurally
smaller, so every function here takes fuel and yields `timeout` when it
runs out; each call site passes decremented fuel. -/

/-- Outcome of an evaluation: Rust's `Result<Expr, String>` plus the fuel
artifact `timeout` (no Rust counterpart — claims quantify over outcomes
other than `timeout`). -/
inductive Outcome where
  | ok (v : Expr)
  | err (msg : String)
  | timeout
deriving DecidableEq

/-- Outcome of evaluating an operand list. -/
inductive ArgsOut where
  | ok (vs : List Expr)
  | err (msg : String)
  | timeout
deriving DecidableEq

/-- Coerce a builtin `Result` into an `Outcome`. -/
def exceptOutcome : Except String Expr → Outcome
  | .ok v => .ok v
  | .error m => .err m

/-- Model of the parameter-extraction loop in `eval_lambda`. -/
def paramsOf : List Expr → Except String (List Str)
  | [] => .ok []
  | .symbol s :: rest => (paramsOf rest).map (s :: ·)
  | _ :: _ => .error "Lambda parameters must be symbols."

/-- Model of `eval_lambda` in `eval.rs` (no environment, no fuel: it only
packages the unevaluated body). -/
def evalLambda (args : List Expr) : Except String Expr :=
  match args with
  | [p, body] =>
    match p with
    | .list ps => (paramsOf ps).map fun params => .func params body
    | _ => .error "The first argument to 'lambda' must be a list of symbols."
  | _ => .error "'lambda' requires a list of parameters and a body."

/-- Model of the parameter-binding loop of `apply_procedure`:
`for (p, v) in params.zip(args) { func_env.insert(p, v) }` applied to the
clone of the caller's environment. -/
def bindParams (params : List Str) (vs : List Expr) (env : Env) : Env :=
  (params.zip vs).foldl (fun e pv => envInsert e pv.1 pv.2) env

mutual

/-- Model of `eval` in `eval.rs`. -/
def eval : Nat → Expr → Env → Outcome × Env
  | 0, _, env => (.timeout, env)
  | n + 1, e, env =>
    match e with
    | .symbol s =>
      match envGet env s with
      | some v => (.ok v, env)
      | none => (.err ("Variable '" ++ String.mk s ++ "' not found."), env)
    | .number _ => (.ok e, env)
    | .bool _ => (.ok e, env)
    | .str _ => (.ok e, env)
    | .func _ _ => (.ok e, env)
    | .list xs =>
      match xs with
      | [] => (.ok (.list []), env)
      | first :: args =>
        match first with
        | .symbol s =>
          if s = "define".data then evalDefine n args env
          else if s = "lambda".data then (exceptOutcome (evalLambda args), env)
          else if s = "if".data then evalIf n args env
          else applyProcedure n (.symbol s) args env
        | _ => applyProcedure n first args env

/-- Model of `eval_define` in `eval.rs`: arity check, then the symbol
check, then evaluation of the value in the current environment, then
in-place insertion. -/
def evalDefine : Nat → List Expr → Env → Outcome × Env
  | 0, _, env => (.timeout, env)
  | n + 1, args, env =>
    match args with
    | [nameExpr, valExpr] =>
      match nameExpr with
      | .symbol name =>
        match eval n valExpr env with
        | (.ok v, env') => (.ok (.symbol name), envInsert env' name v)
        | (.err m, env') => (.err m, env')
        | (.timeout, env') => (.timeout, env')
      | _ => (.err "The first argument to 'define' must be a symbol.", env)
    | _ => (.err "'define' requires a symbol and a value.", env)

/-- Model of `eval_if` in `eval.rs`. -/
def evalIf : Nat → List Expr → Env → Outcome × Env
  | 0, _, env => (.timeout, env)
  | n + 1, args, env =>
    match args with
    | [c, t, e] =>
      match eval n c env with
      | (.ok (.bool b), env') => eval n (if b then t else e) env'
      | (.ok _, env') => (.err "The condition for 'if' must evaluate to a boolean.", env')
      | (.err m, env') => (.err m, env')
      | (.timeout, env') => (.timeout, env')
    | _ => (.err "'if' requires a condition, a then branch, and an else branch.", env)

/-- Model of the operand-evaluation loop of `apply_procedure`
(`args.iter().map(|arg| eval(arg, env)).collect()`): left to right,
aborting on the first error, threading the mutated environment. -/
def evalArgs : Nat → List Expr → Env → ArgsOut × Env
  | 0, _, env => (.timeout, env)
  | _ + 1, [], env => (.ok [], env)
  | n + 1, a :: rest, env =>
    match eval n a env with
    | (.ok v, env') =>
      match evalArgs n rest env' with
      | (.ok vs, env'') => (.ok (v :: vs), env'')
      | (.err m, env'') => (.err m, env'')
      | (.timeout, env'') => (.timeout, env'')
    | (.err m, env') => (.err m, env')
    | (.timeout, env') => (.timeout, env')

/-- Model of `apply_procedure` in `eval.rs`, lines 89-105: evaluate the
operands; when the operator is a bare symbol try it as a built-in, report
any built-in failure other than the `notBuiltinMsg` sentinel immediately,
and on the sentinel fall through to `applyFuncTail`. -/
def applyProcedure : Nat → Expr → List Expr → Env → Outcome × Env
  | 0, _, _, env => (.timeout, env)
  | n + 1, opExpr, args, env =>
    match evalArgs n args env with
    | (.ok vs, env') =>
      match opExpr with
      | .symbol s =>
        match applyBuiltinOp s vs with
        | .ok r => (.ok r, env')
        | .error m =>
          if m ≠ notBuiltinMsg then (.err m, env')
          else applyFuncTail n (.symbol s) vs env'
      | _ => applyFuncTail n opExpr vs env'
    | (.err m, env') => (.err m, env')
    | (.timeout, env') => (.timeout, env')

/-- Model of `apply_procedure` lines 107-123: evaluate the operator,
require a `Func`, check arity, bind parameters into a duplicate of the
caller's environment, evaluate the body there and discard the duplicate
(the second component returned is the caller's environment, untouched by
body evaluation). -/
def applyFuncTail : Nat → Expr → List Expr → Env → Outcome × Env
  | 0, _, _, env => (.timeout, env)
  | n + 1, opExpr, vs, env =>
    match eval n opExpr env with
    | (.ok (.func params body), env') =>
      if params.length = vs.length then
        ((eval n body (bindParams params vs env')).1, env')
      else
        (.err ("Function expects " ++ toString params.length ++
               " arguments, but received " ++ toString vs.length ++ "."), env')
    | (.ok _, env') => (.err ("Not a function: " ++ String.mk (display opExpr)), env')
    | (.err m, env') => (.err m, env')
    | (.timeout, env') => (.timeout, env')

end

/-! ## Helper lemmas about the built-in operators -/

/-- An argument that is not a `Number`. -/
def nonNumber (a : Expr) : Bool :=
  match a with
  | .number _ => false
  | _ => true

/-- An argument that is not a `String`. -/
def nonString (a : Expr) : Bool :=
  match a with
  | .str _ => false
  | _ => true

/-- The six built-in operator names. -/
def builtins : List Str :=
  ["+".data, "-".data, "*".data, "/".data, ">".data, "concat".data]

theorem applyBuiltinOp_plus (args : List Expr) :
    applyBuiltinOp "+".data args = numericOp "+".data F.add ⟨0, 1⟩ args := rfl

theorem applyBuiltinOp_times (args : List Expr) :
    applyBuiltinOp "*".data args = numericOp "*".data F.mul ⟨1, 1⟩ args := rfl

theorem applyBuiltinOp_minus (args : List Expr) :
    applyBuiltinOp "-".data args =
      (match toNums "-".data args with
        | .error m => .error m
        | .ok [] => .error "Operator '-' requires at least one argument."
        | .ok [n] => .ok (.number n.neg)
        | .ok (n :: rest) => .ok (.number (rest.foldl F.sub n))) := rfl

theorem applyBuiltinOp_div (args : List Expr) :
    applyBuiltinOp "/".data args =
      (if (args.drop 1).any zeroArg then .error "Division by zero."
       else
        match toNums "/".data args with
        | .error m => .error m
        | .ok [] => .error "Operator '/' requires at least one argument."
        | .ok (n :: rest) => .ok (.number (rest.foldl F.div n))) := rfl

theorem applyBuiltinOp_gt (args : List Expr) :
    applyBuiltinOp ">".data args =
      (if args.length ≠ 2 then .error "'>' requires two arguments."
       else
        match args with
        | [.number n1, .number n2] => .ok (.bool (F.lt n2 n1))
        | _ => .error "'>' requires number arguments.") := rfl

theorem applyBuiltinOp_concat (args : List Expr) :
    applyBuiltinOp "concat".data args =
      (match toStrs args with
        | .error m => .error m
        | .ok ss => .ok (.str ss.flatten)) := rfl

theorem toNums_map_number (op : Str) (rs : List F) :
    toNums op (rs.map .number) = .ok rs := by
  induction rs with
  | nil => rfl
  | cons r rest ih => simp [toNums, ih, Except.map]

theorem toNums_error_of_nonNumber (op : Str) (args : List Expr)
    (h : args.any nonNumber = true) : toNums op args = .error (numArgsMsg op) := by
  induction args with
  | nil => simp at h
  | cons a rest ih =>
    match a with
    | .number n =>
      have hr : rest.any nonNumber = true := by simpa [nonNumber] using h
      simp [toNums, ih hr, Except.map]
    | .symbol s => rfl
    | .bool v => rfl
    | .str s => rfl
    | .list xs => rfl
    | .func p b => rfl

theorem toNums_error_msg (op : Str) :
    ∀ (args : List Expr) (m : String),
      toNums op args = .error m → m = numArgsMsg op := by
  intro args
  induction args with
  | nil => intro m h; simp [toNums] at h
  | cons a rest ih =>
    intro m h
    match a with
    | .number n =>
      simp only [toNums] at h
      cases hrest : toNums op rest with
      | ok rs => rw [hrest] at h; simp [Except.map] at h
      | error m' =>
        rw [hrest] at h
        simp only [Except.map] at h
        injection h with h2
        exact h2 ▸ ih m' hrest
    | .symbol s => simp only [toNums] at h; cases h; rfl
    | .bool v => simp only [toNums] at h; cases h; rfl
    | .str s => simp only [toNums] at h; cases h; rfl
    | .list xs => simp only [toNums] at h; cases h; rfl
    | .func p b => simp only [toNums] at h; cases h; rfl

theorem toStrs_map_str (ss : List Str) : toStrs (ss.map .str) = .ok ss := by
  induction ss with
  | nil => rfl
  | cons s rest ih => simp [toStrs, ih, Except.map]

theorem toStrs_error_of_nonString (args : List Expr)
    (h : args.any nonString = true) :
    toStrs args = .error "'concat' requires string arguments." := by
  induction args with
  | nil => simp at h
  | cons a rest ih =>
    match a with
    | .str s =>
      have hr : rest.any nonString = true := by simpa [nonString] using h
      simp [toStrs, ih hr, Except.map]
    | .symbol s => rfl
    | .bool v => rfl
    | .number n => rfl
    | .list xs => rfl
    | .func p b => rfl

theorem toStrs_error_msg :
    ∀ (args : List Expr) (m : String),
      toStrs args = .error m → m = "'concat' requires string arguments." := by
  intro args
  induction args with
  | nil => intro m h; simp [toStrs] at h
  | cons a rest ih =>
    intro m h
    match a with
    | .str s =>
      simp only [toStrs] at h
      cases hrest : toStrs rest with
      | ok rs => rw [hrest] at h; simp [Except.map] at h
      | error m' =>
        rw [hrest] at h
        simp only [Except.map] at h
        injection h with h2
        exact h2 ▸ ih m' hrest
    | .symbol s => simp only [toStrs] at h; cases h; rfl
    | .bool v => simp only [toStrs] at h; cases h; rfl
    | .number n => simp only [toStrs] at h; cases h; rfl
    | .list xs => simp only [toStrs] at h; cases h; rfl
    | .func p b => simp only [toStrs] at h; cases h; rfl

/-- A built-in among the six never reports the `notBuiltinMsg` sentinel:
all of its failures are its own arity, type or division errors. -/
theorem builtin_no_sentinel :
    ∀ s ∈ builtins, ∀ vs : List Expr,
      applyBuiltinOp s vs ≠ .error notBuiltinMsg := by
  intro s hs vs h
  simp only [builtins, List.mem_cons, List.not_mem_nil, or_false] at hs
  rcases hs with rfl | rfl | rfl | rfl | rfl | rfl
  · rw [applyBuiltinOp_plus] at h
    unfold numericOp at h
    split at h
    · injection h with h2
      exact absurd ((toNums_error_msg _ vs _ (by assumption)).symm.trans h2) (by decide)
    · split at h
      · injection h with h2; exact absurd h2 (by decide)
      · exact Except.noConfusion h
  · rw [applyBuiltinOp_minus] at h
    split at h
    · injection h with h2
      exact absurd ((toNums_error_msg _ vs _ (by assumption)).symm.trans h2) (by decide)
    · injection h with h2; exact absurd h2 (by decide)
    · exact Except.noConfusion h
    · exact Except.noConfusion h
  · rw [applyBuiltinOp_times] at h
    unfold numericOp at h
    split at h
    · injection h with h2
      exact absurd ((toNums_error_msg _ vs _ (by assumption)).symm.trans h2) (by decide)
    · split at h
      · injection h with h2; exact absurd h2 (by decide)
      · exact Except.noConfusion h
  · rw [applyBuiltinOp_div] at h
    split at h
    · injection h with h2; exact absurd h2 (by decide)
    · split at h
      · injection h with h2
        exact absurd ((toNums_error_msg _ vs _ (by assumption)).symm.trans h2) (by decide)
      · injection h with h2; exact absurd h2 (by decide)
      · exact Except.noConfusion h
  · rw [applyBuiltinOp_gt] at h
    split at h
    · injection h with h2; exact absurd h2 (by decide)
    · split at h
      · exact Except.noConfusion h
      · injection h with h2; exact absurd h2 (by decide)
  · rw [applyBuiltinOp_concat] at h
    split at h
    · injection h with h2
      exact absurd ((toStrs_error_msg vs _ (by assumption)).symm.trans h2) (by decide)
    · exact Except.noConfusion h

/-- A symbol outside the six always reports exactly the sentinel. -/
theorem applyBuiltinOp_not_builtin (s : Str) (hs : s ∉ builtins) (vs : List Expr) :
    applyBuiltinOp s vs = .error notBuiltinMsg := by
  simp only [builtins, List.mem_cons, List.not_mem_nil, or_false, not_or] at hs
  obtain ⟨h1, h2, h3, h4, h5, h6⟩ := hs
  unfold applyBuiltinOp
  rw [if_neg h1, if_neg h3, if_neg h2, if_neg h4, if_neg h5, if_neg h6]

/-! ## Claim C3 -/

/-- C3: for the built-in `/`, a single numeric argument is passed through
unchanged; with two or more arguments, any argument after the first that
equals zero fails the whole call with the division-by-zero error (this
guard runs before any division and even before the arguments are checked
to be numeric); otherwise, on numeric arguments, the result divides
left-to-right starting from the first argument. -/
theorem claim3_div_builtin :
    (∀ q : F, applyBuiltinOp "/".data [.number q] = .ok (.number q)) ∧
    (∀ args : List Expr, 2 ≤ args.length → (args.drop 1).any zeroArg = true →
      applyBuiltinOp "/".data args = .error "Division by zero.") ∧
    (∀ (q : F) (qs : List F), (∀ r ∈ qs, r.isZero = false) →
      applyBuiltinOp "/".data ((q :: qs).map .number) =
        .ok (.number (qs.foldl F.div q))) := by
  refine ⟨?_, ?_, ?_⟩
  · intro q
    rw [applyBuiltinOp_div]
    simp [toNums, Except.map, zeroArg]
  · intro args _ hz
    rw [applyBuiltinOp_div, if_pos hz]
  · intro q qs h
    have hz : (((q :: qs).map Expr.number).drop 1).any zeroArg = false := by
      rw [List.map_cons, List.drop_succ_cons, List.drop_zero]
      simp only [List.any_eq_false]
      intro a ha
      obtain ⟨r, hr, rfl⟩ := List.mem_map.mp ha
      simp [zeroArg, h r hr]
    rw [applyBuiltinOp_div, if_neg (by rw [hz]; simp), toNums_map_number]

/-- C3 witness: `(/ 7)` passes through, `(/ 10 0)` is a division-by-zero
error, `(/ 10 2)` divides left to right. -/
theorem claim3_witness :
    applyBuiltinOp "/".data [.number ⟨7, 1⟩] = .ok (.number ⟨7, 1⟩) ∧
    applyBuiltinOp "/".data [.number ⟨10, 1⟩, .number ⟨0, 1⟩] =
      .error "Division by zero." ∧
    applyBuiltinOp "/".data [.number ⟨10, 1⟩, .number ⟨2, 1⟩] =
      .ok (.number ⟨10, 2⟩) := by
  refine ⟨claim3_div_builtin.1 ⟨7, 1⟩,
    claim3_div_builtin.2.1 [.number ⟨10, 1⟩, .number ⟨0, 1⟩] (by decide) (by decide),
    ?_⟩
  have h := claim3_div_builtin.2.2 ⟨10, 1⟩ [⟨2, 1⟩] (by decide)
  simpa using h

/-! ## Claim C4 -/

/-- C4 counterexample: `/` called on a non-numeric argument together with a
trailing zero reports `Division by zero.`, not the `/` type error; and `>`
called on a single non-numeric argument reports its arity error, not the
`>` type error.  So not every built-in call with a non-numeric argument
fails with the operator's type error. -/
theorem claim4_counterexample :
    applyBuiltinOp "/".data [.str "a".data, .number ⟨0, 1⟩] =
      .error "Division by zero." ∧
    ("Division by zero." : String) ≠ numArgsMsg "/".data ∧
    applyBuiltinOp ">".data [.str "a".data] = .error "'>' requires two arguments." ∧
    ("'>' requires two arguments." : String) ≠ "'>' requires number arguments." := by
  exact ⟨by decide, by decide, by decide, by decide⟩

/-- C4 (amended): a call of `+`, `*` or `-` with a non-numeric argument
fails with the type error naming that operator; so does `/` unless a
trailing zero argument takes precedence (then `Division by zero.` is
reported first), and so does `>` on two arguments (with fewer or more
arguments its arity error takes precedence); `concat` with a non-string
argument fails with its own type error. -/
theorem claim4_type_errors :
    (∀ (op : Str) (args : List Expr),
      (op = "+".data ∨ op = "*".data ∨ op = "-".data) →
      args.any nonNumber = true →
      applyBuiltinOp op args = .error (numArgsMsg op)) ∧
    (∀ args : List Expr, args.any nonNumber = true →
      (args.drop 1).any zeroArg = false →
      applyBuiltinOp "/".data args = .error (numArgsMsg "/".data)) ∧
    (∀ args : List Expr, args.length = 2 → args.any nonNumber = true →
      applyBuiltinOp ">".data args = .error "'>' requires number arguments.") ∧
    (∀ args : List Expr, args.any nonString = true →
      applyBuiltinOp "concat".data args =
        .error "'concat' requires string arguments.") := by
  refine ⟨?_, ?_, ?_, ?_⟩
  · intro op args hop h
    rcases hop with rfl | rfl | rfl
    · rw [applyBuiltinOp_plus]
      unfold numericOp
      rw [toNums_error_of_nonNumber _ _ h]
    · rw [applyBuiltinOp_times]
      unfold numericOp
      rw [toNums_error_of_nonNumber _ _ h]
    · rw [applyBuiltinOp_minus, toNums_error_of_nonNumber _ _ h]
  · intro args h hz
    rw [applyBuiltinOp_div, if_neg (by rw [hz]; simp), toNums_error_of_nonNumber _ _ h]
  · intro args hlen h
    match args, hlen with
    | [a, b], _ =>
      rw [applyBuiltinOp_gt, if_neg (by simp)]
      cases a <;> cases b <;> simp_all [nonNumber]
  · intro args h
    rw [applyBuiltinOp_concat, toStrs_error_of_nonString _ h]

/-- C4 witness at concrete inputs for each amended conjunct. -/
theorem claim4_witness :
    applyBuiltinOp "+".data [.str "a".data] =
      .error (numArgsMsg "+".data) ∧
    applyBuiltinOp "/".data [.str "a".data] =
      .error (numArgsMsg "/".data) ∧
    applyBuiltinOp ">".data [.number ⟨1, 1⟩, .str "b".data] =
      .error "'>' requires number arguments." ∧
    applyBuiltinOp "concat".data [.number ⟨1, 1⟩] =
      .error "'concat' requires string arguments." :=
  ⟨claim4_type_errors.1 "+".data [.str "a".data] (Or.inl rfl) (by decide),
   claim4_type_errors.2.1 [.str "a".data] (by decide) (by decide),
   claim4_type_errors.2.2.1 [.number ⟨1, 1⟩, .str "b".data] (by decide) (by decide),
   claim4_type_errors.2.2.2 [.number ⟨1, 1⟩] (by decide)⟩

/-- After a successful operand evaluation, `apply_procedure` continues with
the built-in attempt (for a bare-symbol operator) or the operator
evaluation. -/
theorem applyProcedure_ok_args (n : Nat) (opExpr : Expr) (args vs : List Expr)
    (env env' : Env) (h : evalArgs n args env = (.ok vs, env')) :
    applyProcedure (n + 1) opExpr args env =
      (match opExpr with
       | .symbol s =>
         match applyBuiltinOp s vs with
         | .ok r => (.ok r, env')
         | .error m =>
           if m ≠ notBuiltinMsg then (.err m, env')
           else applyFuncTail n (.symbol s) vs env'
       | _ => applyFuncTail n opExpr vs env') := by
  unfold applyProcedure
  rw [h]

/-! ## Claim C5 -/

/-- C5: in an application whose head is a bare symbol, once the operands
have evaluated successfully, a head among the six built-in names always
runs the built-in — whatever the environment binds that name to — and
the call's result is exactly the built-in's result (success, or immediate
failure for any error other than the "not a built-in" sentinel); a head
outside the six always produces the sentinel and falls through to
evaluating the head as an expression (`applyFuncTail`). -/
theorem claim5_builtin_precedence (n : Nat) (s : Str) (args : List Expr) (env : Env) :
    (s ∈ builtins → ∀ vs env', evalArgs (n + 1) args env = (.ok vs, env') →
      applyProcedure (n + 2) (.symbol s) args env =
        (exceptOutcome (applyBuiltinOp s vs), env')) ∧
    (s ∉ builtins →
      (∀ vs : List Expr, applyBuiltinOp s vs = .error notBuiltinMsg) ∧
      (∀ vs env', evalArgs (n + 1) args env = (.ok vs, env') →
        applyProcedure (n + 2) (.symbol s) args env =
          applyFuncTail (n + 1) (.symbol s) vs env')) := by
  constructor
  · intro hs vs env' hargs
    rw [applyProcedure_ok_args (n + 1) _ args vs env env' hargs]
    cases hb : applyBuiltinOp s vs with
    | ok r => simp [hb, exceptOutcome]
    | error m =>
      have hm : m ≠ notBuiltinMsg := fun hm => builtin_no_sentinel s hs vs (hm ▸ hb)
      simp [hb, hm, exceptOutcome]
  · intro hs
    refine ⟨applyBuiltinOp_not_builtin s hs, ?_⟩
    intro vs env' hargs
    rw [applyProcedure_ok_args (n + 1) _ args vs env env' hargs]
    simp [applyBuiltinOp_not_builtin s hs]

/-- C5 witness: with the environment binding `+` to a function, the
built-in still runs (`(+ 2)` evaluates to `2`), and the unbound head `foo`
falls through to operator evaluation. -/
theorem claim5_witness :
    applyProcedure 4 (.symbol "+".data) [.number ⟨2, 1⟩]
        [("+".data, Expr.func [] (.number ⟨99, 1⟩))] =
      (.ok (.number (F.add ⟨0, 1⟩ ⟨2, 1⟩)),
        [("+".data, Expr.func [] (.number ⟨99, 1⟩))]) ∧
    applyProcedure 4 (.symbol "foo".data) [.number ⟨2, 1⟩] [] =
      applyFuncTail 3 (.symbol "foo".data) [.number ⟨2, 1⟩] [] := by
  constructor
  · have h := (claim5_builtin_precedence 2 "+".data [.number ⟨2, 1⟩]
      [("+".data, Expr.func [] (.number ⟨99, 1⟩))]).1 (by decide)
      [.number ⟨2, 1⟩] [("+".data, Expr.func [] (.number ⟨99, 1⟩))] (by decide)
    simpa using h
  · exact ((claim5_builtin_precedence 2 "foo".data [.number ⟨2, 1⟩] []).2
      (by decide)).2 [.number ⟨2, 1⟩] [] (by decide)

/-! ## Environment lemmas for the `Func`-application claims -/

theorem envGet_insert (env : Env) (k : Str) (v : Expr) (x : Str) :
    envGet (envInsert env k v) x = if k = x then some v else envGet env x := rfl

theorem bindParams_cons (p : Str) (ps : List Str) (v : Expr) (vs : List Expr)
    (env : Env) :
    bindParams (p :: ps) (v :: vs) env = bindParams ps vs (envInsert env p v) := rfl

/-- Binding parameters does not disturb the binding of any other name. -/
theorem bindParams_not_param :
    ∀ (params : List Str) (vs : List Expr) (env : Env) (x : Str),
      x ∉ params → envGet (bindParams params vs env) x = envGet env x := by
  intro params
  induction params with
  | nil => intro vs env x _; rfl
  | cons p ps ih =>
    intro vs env x hx
    rw [List.mem_cons, not_or] at hx
    cases vs with
    | nil => rfl
    | cons v vs' =>
      rw [bindParams_cons, ih vs' _ x hx.2, envGet_insert,
        if_neg (fun h => hx.1 h.symm)]

/-- With distinct parameter names, every parameter is bound to its
corresponding evaluated argument. -/
theorem bindParams_param :
    ∀ (params : List Str) (vs : List Expr) (env : Env),
      params.Nodup → params.length = vs.length →
      ∀ (i : Nat) (h : i < params.length) (h' : i < vs.length),
        envGet (bindParams params vs env) (params.get ⟨i, h⟩) =
          some (vs.get ⟨i, h'⟩) := by
  intro params
  induction params with
  | nil => intro vs env _ _ i h; exact absurd h (by simp)
  | cons p ps ih =>
    intro vs env hnd hlen i h h'
    cases vs with
    | nil => simp at hlen
    | cons v vs' =>
      cases i with
      | zero =>
        have hp : p ∉ ps := (List.nodup_cons.mp hnd).1
        rw [bindParams_cons]
        have hni := bindParams_not_param ps vs' (envInsert env p v) p hp
        simpa [envGet_insert] using hni
      | succ j =>
        have hrec := ih vs' (envInsert env p v) (List.nodup_cons.mp hnd).2
          (by simpa using hlen) j (by simpa using h) (by simpa using h')
        rw [bindParams_cons]
        simpa using hrec

/-- After the operator evaluates to a `Func` of matching arity,
`apply_procedure` evaluates the body in the parameter-extended duplicate
and returns the caller's environment untouched. -/
theorem applyFuncTail_func (n : Nat) (opExpr : Expr) (vs : List Expr)
    (env env' : Env) (params : List Str) (body : Expr)
    (h : eval n opExpr env = (.ok (.func params body), env'))
    (hlen : params.length = vs.length) :
    applyFuncTail (n + 1) opExpr vs env =
      ((eval n body (bindParams params vs env')).1, env') := by
  unfold applyFuncTail
  rw [h]
  simp [hlen]

/-! ## Claim C1 -/

/-- C1: applying a `Func` value evaluates its body against an environment
built from the caller's environment at the call site extended with the
parameter bindings, and nothing else: a name that is not a parameter looks
up in the body exactly as at the call site, and (for distinct parameter
names) each parameter maps to its corresponding evaluated argument.  The
`Func` carries no captured environment, so no binding from
lambda-evaluation time is consulted. -/
theorem claim1_call_site_scoping (n : Nat) (opExpr : Expr) (vs : List Expr)
    (env env' : Env) (params : List Str) (body : Expr)
    (hop : eval n opExpr env = (.ok (.func params body), env'))
    (hlen : params.length = vs.length) :
    applyFuncTail (n + 1) opExpr vs env =
      ((eval n body (bindParams params vs env')).1, env') ∧
    (∀ x : Str, x ∉ params →
      envGet (bindParams params vs env') x = envGet env' x) ∧
    (params.Nodup → ∀ (i : Nat) (h : i < params.length) (h' : i < vs.length),
      envGet (bindParams params vs env') (params.get ⟨i, h⟩) =
        some (vs.get ⟨i, h'⟩)) :=
  ⟨applyFuncTail_func n opExpr vs env env' params body hop hlen,
   fun x hx => bindParams_not_param params vs env' x hx,
   fun hnd i h h' => bindParams_param params vs env' hnd hlen i h h'⟩

/-- C1 witness: one `Func` value whose body is the free variable `y`,
invoked from two call sites binding `y` to `1` and to `2`, returns the
respective call site's value. -/
theorem claim1_witness :
    applyFuncTail 4 (.symbol "f".data) []
        [("f".data, Expr.func [] (.symbol "y".data)),
         ("y".data, Expr.number ⟨1, 1⟩)] =
      (.ok (.number ⟨1, 1⟩),
        [("f".data, Expr.func [] (.symbol "y".data)),
         ("y".data, Expr.number ⟨1, 1⟩)]) ∧
    applyFuncTail 4 (.symbol "f".data) []
        [("f".data, Expr.func [] (.symbol "y".data)),
         ("y".data, Expr.number ⟨2, 1⟩)] =
      (.ok (.number ⟨2, 1⟩),
        [("f".data, Expr.func [] (.symbol "y".data)),
         ("y".data, Expr.number ⟨2, 1⟩)]) := by
  constructor
  · have h := (claim1_call_site_scoping 3 (.symbol "f".data) []
      [("f".data, Expr.func [] (.symbol "y".data)), ("y".data, Expr.number ⟨1, 1⟩)]
      [("f".data, Expr.func [] (.symbol "y".data)), ("y".data, Expr.number ⟨1, 1⟩)]
      [] (.symbol "y".data) (by decide) (by decide)).1
    rw [h]; decide
  · have h := (claim1_call_site_scoping 3 (.symbol "f".data) []
      [("f".data, Expr.func [] (.symbol "y".data)), ("y".data, Expr.number ⟨2, 1⟩)]
      [("f".data, Expr.func [] (.symbol "y".data)), ("y".data, Expr.number ⟨2, 1⟩)]
      [] (.symbol "y".data) (by decide) (by decide)).1
    rw [h]; decide

/-! ## Claim C2 -/

/-- C2 counterexample: the operator position of an application can itself
perform a `define` (here `((lambda (y) (lambda (z) z)) (define h 9))`),
which runs after the operands have been evaluated and mutates the caller's
environment; the call then reaches body evaluation and returns, and the
caller's environment afterwards (`h` is bound) differs from its state when
operand evaluation finished (empty).  So "the caller's environment after
the call equals its state after operand evaluation finished" fails as
stated, even though body evaluation itself never leaks a binding. -/
theorem claim2_counterexample :
    applyProcedure 10
      (.list [.list [.symbol "lambda".data, .list [.symbol "y".data],
                     .list [.symbol "lambda".data, .list [.symbol "z".data],
                            .symbol "z".data]],
              .list [.symbol "define".data, .symbol "h".data, .number ⟨9, 1⟩]])
      [.number ⟨1, 1⟩] [] =
      (.ok (.number ⟨1, 1⟩), [("h".data, Expr.number ⟨9, 1⟩)]) ∧
    evalArgs 9 [.number ⟨1, 1⟩] [] = (.ok [.number ⟨1, 1⟩], []) ∧
    ([("h".data, Expr.number ⟨9, 1⟩)] : Env) ≠ [] := by
  exact ⟨by decide, by decide, by decide⟩

/-- C2 (amended): when an application reaches body evaluation, the body is
evaluated against the derived duplicate only, and the environment the call
returns is exactly the caller's environment as it stood after operand AND
operator evaluation finished — no binding added, removed or changed by the
body evaluation (in particular no `define` in the body) is observable in
it. -/
theorem claim2_body_effects_confined (n : Nat) (opExpr : Expr)
    (args vs : List Expr) (env env' env'' : Env) (params : List Str)
    (body : Expr)
    (hargs : evalArgs (n + 1) args env = (.ok vs, env'))
    (hfall : ∀ s : Str, opExpr = .symbol s →
      applyBuiltinOp s vs = .error notBuiltinMsg)
    (hop : eval n opExpr env' = (.ok (.func params body), env''))
    (hlen : params.length = vs.length) :
    applyProcedure (n + 2) opExpr args env =
      ((eval n body (bindParams params vs env'')).1, env'') := by
  rw [applyProcedure_ok_args (n + 1) opExpr args vs env env' hargs]
  have htail := applyFuncTail_func n opExpr vs env' env'' params body hop hlen
  cases opExpr with
  | symbol s => simp [hfall s rfl, htail]
  | number m => exact htail
  | bool b => exact htail
  | str t => exact htail
  | list xs => exact htail
  | func p b => exact htail

/-- C2 witness: a body that performs `(define w 1)` evaluates fine, yet
the caller's environment comes back exactly as it was after operand and
operator evaluation. -/
theorem claim2_witness :
    applyProcedure 6 (.symbol "f".data) []
        [("f".data, Expr.func []
          (.list [.symbol "define".data, .symbol "w".data, .number ⟨1, 1⟩]))] =
      (.ok (.symbol "w".data),
        [("f".data, Expr.func []
          (.list [.symbol "define".data, .symbol "w".data, .number ⟨1, 1⟩]))]) := by
  have h := claim2_body_effects_confined 4 (.symbol "f".data) [] []
    [("f".data, Expr.func []
      (.list [.symbol "define".data, .symbol "w".data, .number ⟨1, 1⟩]))]
    [("f".data, Expr.func []
      (.list [.symbol "define".data, .symbol "w".data, .number ⟨1, 1⟩]))]
    [("f".data, Expr.func []
      (.list [.symbol "define".data, .symbol "w".data, .number ⟨1, 1⟩]))]
    [] (.list [.symbol "define".data, .symbol "w".data, .number ⟨1, 1⟩])
    (by decide)
    (fun s hs => by
      injection hs with h2
      exact h2 ▸ (by decide : applyBuiltinOp "f".data [] = .error notBuiltinMsg))
    (by decide) (by decide)
  rw [h]; decide

/-- `eval_if` on exactly three operands dispatches on the evaluated
condition. -/
theorem evalIf_three (n : Nat) (c t e : Expr) (env : Env) :
    evalIf (n + 1) [c, t, e] env =
      (match eval n c env with
       | (.ok (.bool b), env') => eval n (if b then t else e) env'
       | (.ok _, env') =>
         (.err "The condition for 'if' must evaluate to a boolean.", env')
       | (.err m, env') => (.err m, env')
       | (.timeout, env') => (.timeout, env')) := rfl

/-! ## Claim C6 -/

/-- C6: an `if` form dispatches from `eval` to `eval_if`; with operand
count other than three it fails with the `if` arity error; otherwise the
condition is evaluated first and must yield a `Bool` (a condition error
propagates, a non-boolean value gives the condition error); on `true` the
result and environment effects are exactly those of the then branch, on
`false` exactly those of the else branch, and the untaken branch can be
replaced by an arbitrary expression without changing the outcome. -/
theorem claim6_if_form (n : Nat) :
    (∀ (args : List Expr) (env : Env),
      eval (n + 1) (.list (.symbol "if".data :: args)) env = evalIf n args env) ∧
    (∀ (args : List Expr) (env : Env), args.length ≠ 3 →
      evalIf (n + 1) args env =
        (.err "'if' requires a condition, a then branch, and an else branch.",
          env)) ∧
    (∀ (c t e : Expr) (env env' : Env),
      (eval n c env = (.ok (.bool true), env') →
        evalIf (n + 1) [c, t, e] env = eval n t env' ∧
        ∀ e2 : Expr, evalIf (n + 1) [c, t, e2] env = eval n t env') ∧
      (eval n c env = (.ok (.bool false), env') →
        evalIf (n + 1) [c, t, e] env = eval n e env' ∧
        ∀ t2 : Expr, evalIf (n + 1) [c, t2, e] env = eval n e env') ∧
      (∀ v : Expr, eval n c env = (.ok v, env') → (∀ b : Bool, v ≠ .bool b) →
        evalIf (n + 1) [c, t, e] env =
          (.err "The condition for 'if' must evaluate to a boolean.", env')) ∧
      (∀ m : String, eval n c env = (.err m, env') →
        evalIf (n + 1) [c, t, e] env = (.err m, env'))) := by
  refine ⟨?_, ?_, ?_⟩
  · intro args env; rfl
  · intro args env hlen
    match args with
    | [] => rfl
    | [a] => rfl
    | [a, b] => rfl
    | [a, b, c] => exact absurd (by simp) hlen
    | a :: b :: c :: d :: rest => rfl
  · intro c t e env env'
    refine ⟨?_, ?_, ?_, ?_⟩
    · intro hc
      constructor
      · rw [evalIf_three, hc]; rfl
      · intro e2; rw [evalIf_three, hc]; rfl
    · intro hc
      constructor
      · rw [evalIf_three, hc]; rfl
      · intro t2; rw [evalIf_three, hc]; rfl
    · intro v hc hv
      cases v with
      | bool b => exact absurd rfl (hv b)
      | symbol s => rw [evalIf_three, hc]
      | number m => rw [evalIf_three, hc]
      | str s => rw [evalIf_three, hc]
      | list xs => rw [evalIf_three, hc]
      | func p b => rw [evalIf_three, hc]
    · intro m hc
      rw [evalIf_three, hc]

/-- C6 witness: arity error, a taken then branch with the untaken branch
swapped, and a non-boolean condition, all at concrete inputs. -/
theorem claim6_witness :
    evalIf 3 [] [] =
      (.err "'if' requires a condition, a then branch, and an else branch.",
        []) ∧
    evalIf 3 [.bool true, .str "yes".data, .str "no".data] [] =
      (.ok (.str "yes".data), []) ∧
    evalIf 3 [.bool true, .str "yes".data, .str "other".data] [] =
      (.ok (.str "yes".data), []) ∧
    evalIf 3 [.number ⟨1, 1⟩, .str "yes".data, .str "no".data] [] =
      (.err "The condition for 'if' must evaluate to a boolean.", []) := by
  refine ⟨(claim6_if_form 2).2.1 [] [] (by decide), ?_, ?_, ?_⟩
  · have h := (((claim6_if_form 2).2.2 (.bool true) (.str "yes".data)
      (.str "no".data) [] []).1 (by decide)).1
    rw [h]; decide
  · have h := (((claim6_if_form 2).2.2 (.bool true) (.str "yes".data)
      (.str "no".data) [] []).1 (by decide)).2 (.str "other".data)
    rw [h]; decide
  · exact (((claim6_if_form 2).2.2 (.number ⟨1, 1⟩) (.str "yes".data)
      (.str "no".data) [] []).2.2.1 (.number ⟨1, 1⟩) (by decide)
      (fun b => by simp))

/-! ## Claim C10 -/

mutual

/-- No `Func` node anywhere in the expression. -/
def funcFree : Expr → Bool
  | .symbol _ => true
  | .number _ => true
  | .bool _ => true
  | .str _ => true
  | .list xs => funcFreeList xs
  | .func _ _ => false

/-- `funcFree` over a list of expressions. -/
def funcFreeList : List Expr → Bool
  | [] => true
  | x :: xs => funcFree x && funcFreeList xs

end

/-- `atom` never builds a `Func` (nor a `List`). -/
theorem atom_funcFree (t : Str) : funcFree (atom t) = true := by
  unfold atom
  split
  · rfl
  · split
    · rfl
    · split
      · rfl
      · split <;> rfl

/-- Anything `read_from_tokens` returns is `Func`-free, at any fuel. -/
theorem readFrom_funcFree :
    ∀ n : Nat,
      (∀ (ts : List Str) (e : Expr) (rest : List Str),
        readFrom n ts = .ok (e, rest) → funcFree e = true) ∧
      (∀ (ts : List Str) (es : List Expr) (rest : List Str),
        readList n ts = .ok (es, rest) → funcFreeList es = true) := by
  intro n
  induction n with
  | zero =>
    constructor
    · intro ts e rest h; simp [readFrom] at h
    · intro ts es rest h; simp [readList] at h
  | succ n ih =>
    constructor
    · intro ts e rest h
      match ts with
      | [] => simp [readFrom] at h
      | t :: ts' =>
        simp only [readFrom] at h
        split at h
        · split at h
          · injection h with h2
            cases h2
            exact ih.2 ts' _ _ (by assumption)
          · exact absurd h (by simp)
        · split at h
          · exact absurd h (by simp)
          · injection h with h2
            cases h2
            exact atom_funcFree t
    · intro ts es rest h
      match ts with
      | [] => simp [readList] at h
      | t :: ts' =>
        simp only [readList] at h
        split at h
        · injection h with h2
          cases h2
          rfl
        · split at h
          · exact absurd h (by simp)
          · split at h
            · exact absurd h (by simp)
            · injection h with h2
              cases h2
              have hf := ih.1 (t :: ts') _ _ (by assumption)
              have hl := ih.2 _ _ _ (by assumption)
              simp [funcFreeList, hf, hl]

/-- C10: whenever `parse` succeeds, the resulting expression contains no
`Func` node: the parser builds only `Symbol`, `Number`, `Bool`, `String`
and `List` nodes (a `Func` can only arise later, from `eval_lambda` during
evaluation). -/
theorem claim10_parse_func_free (input : Str) (e : Expr)
    (h : parse input = .ok e) : funcFree e = true := by
  unfold parse at h
  split at h
  · exact absurd h (by simp)
  · split at h
    · injection h with h2
      exact h2 ▸ (readFrom_funcFree _).1 _ _ _ (by assumption)
    · exact absurd h (by simp)

/-- C10 witness: the parse of `(+ 1 2)` is `Func`-free. -/
theorem claim10_witness :
    funcFree (.list [.symbol "+".data, .number ⟨1, 1⟩, .number ⟨2, 1⟩]) = true :=
  claim10_parse_func_free "(+ 1 2)".data _ (by decide)

/-! ## Claim C9 -/

/-- Every name bound in `env` is also bound in `env'`. -/
def envLe (env env' : Env) : Prop :=
  ∀ k : Str, (envGet env k).isSome = true → (envGet env' k).isSome = true

theorem envLe_refl (env : Env) : envLe env env := fun _ h => h

theorem envLe_trans {a b c : Env} (h1 : envLe a b) (h2 : envLe b c) :
    envLe a c := fun k hk => h2 k (h1 k hk)

theorem envLe_insert (env : Env) (k : Str) (v : Expr) :
    envLe env (envInsert env k v) := by
  intro x hx
  rw [envGet_insert]
  split
  · simp
  · exact hx

/-- Monotonicity of the bound-name set through every evaluator function,
whatever the outcome (ok, error or fuel exhaustion). -/
theorem eval_envLe :
    ∀ n : Nat,
      (∀ (e : Expr) (env : Env), envLe env (eval n e env).2) ∧
      (∀ (args : List Expr) (env : Env), envLe env (evalArgs n args env).2) ∧
      (∀ (args : List Expr) (env : Env), envLe env (evalDefine n args env).2) ∧
      (∀ (args : List Expr) (env : Env), envLe env (evalIf n args env).2) ∧
      (∀ (op : Expr) (args : List Expr) (env : Env),
        envLe env (applyProcedure n op args env).2) ∧
      (∀ (op : Expr) (vs : List Expr) (env : Env),
        envLe env (applyFuncTail n op vs env).2) := by
  intro n
  induction n with
  | zero =>
    exact ⟨fun e env => envLe_refl env, fun a env => envLe_refl env,
      fun a env => envLe_refl env, fun a env => envLe_refl env,
      fun o a env => envLe_refl env, fun o v env => envLe_refl env⟩
  | succ n ih =>
    obtain ⟨ihEval, ihArgs, ihDef, ihIf, ihProc, ihTail⟩ := ih
    refine ⟨?_, ?_, ?_, ?_, ?_, ?_⟩
    · intro e env
      cases e with
      | symbol s => simp only [eval]; split <;> exact envLe_refl env
      | number m => exact envLe_refl env
      | bool b => exact envLe_refl env
      | str s => exact envLe_refl env
      | func p b => exact envLe_refl env
      | list xs =>
        match xs with
        | [] => exact envLe_refl env
        | first :: args =>
          cases first with
          | symbol s =>
            simp only [eval]
            split
            · exact ihDef args env
            · split
              · exact envLe_refl env
              · split
                · exact ihIf args env
                · exact ihProc _ args env
          | number m => exact ihProc _ args env
          | bool b => exact ihProc _ args env
          | str t => exact ihProc _ args env
          | list ys => exact ihProc _ args env
          | func p b => exact ihProc _ args env
    · intro args env
      match args with
      | [] => exact envLe_refl env
      | a :: rest =>
        have h1 := ihEval a env
        simp only [evalArgs]
        rcases heva : eval n a env with ⟨o, env1⟩
        rw [heva] at h1
        cases o with
        | ok v =>
          dsimp only
          have h2 := ihArgs rest env1
          rcases ha : evalArgs n rest env1 with ⟨o2, env2⟩
          rw [ha] at h2
          cases o2 <;> exact envLe_trans h1 h2
        | err m => exact h1
        | timeout => exact h1
    · intro args env
      match args with
      | [] => exact envLe_refl env
      | [a] => exact envLe_refl env
      | [a, b] =>
        cases a with
        | symbol name =>
          have h1 := ihEval b env
          simp only [evalDefine]
          rcases heva : eval n b env with ⟨o, env1⟩
          rw [heva] at h1
          cases o with
          | ok v => exact envLe_trans h1 (envLe_insert env1 name v)
          | err m => exact h1
          | timeout => exact h1
        | number m => exact envLe_refl env
        | bool v => exact envLe_refl env
        | str t => exact envLe_refl env
        | list ys => exact envLe_refl env
        | func p c => exact envLe_refl env
      | a :: b :: c :: rest => exact envLe_refl env
    · intro args env
      match args with
      | [] => exact envLe_refl env
      | [a] => exact envLe_refl env
      | [a, b] => exact envLe_refl env
      | [c, t, e] =>
        have h1 := ihEval c env
        rw [evalIf_three]
        rcases heva : eval n c env with ⟨o, env1⟩
        rw [heva] at h1
        cases o with
        | ok v =>
          cases v with
          | bool b => exact envLe_trans h1 (ihEval _ env1)
          | symbol s => exact h1
          | number m => exact h1
          | str t2 => exact h1
          | list ys => exact h1
          | func p c2 => exact h1
        | err m => exact h1
        | timeout => exact h1
      | a :: b :: c :: d :: rest => exact envLe_refl env
    · intro op args env
      have h1 := ihArgs args env
      simp only [applyProcedure]
      rcases ha : evalArgs n args env with ⟨o, env1⟩
      rw [ha] at h1
      cases o with
      | ok vs =>
        dsimp only
        cases op with
        | symbol s =>
          dsimp only
          cases applyBuiltinOp s vs with
          | ok r => exact h1
          | error m =>
            dsimp only
            by_cases hm : m = notBuiltinMsg
            · rw [if_neg (by simp [hm])]
              exact envLe_trans h1 (ihTail _ vs env1)
            · rw [if_pos hm]
              exact h1
        | number m => exact envLe_trans h1 (ihTail _ vs env1)
        | bool b => exact envLe_trans h1 (ihTail _ vs env1)
        | str t => exact envLe_trans h1 (ihTail _ vs env1)
        | list ys => exact envLe_trans h1 (ihTail _ vs env1)
        | func p b => exact envLe_trans h1 (ihTail _ vs env1)
      | err m => exact h1
      | timeout => exact h1
    · intro op vs env
      have h1 := ihEval op env
      simp only [applyFuncTail]
      rcases heva : eval n op env with ⟨o, env1⟩
      rw [heva] at h1
      cases o with
      | ok v =>
        cases v with
        | func params body =>
          by_cases hl : params.length = vs.length
          · simp only [hl, if_true]
            exact h1
          · simp only [hl, if_false]
            exact h1
        | symbol s => exact h1
        | number m => exact h1
        | bool b => exact h1
        | str t => exact h1
        | list ys => exact h1
      | err m => exact h1
      | timeout => exact h1

/-- C9: evaluation never removes a binding: every name bound in the
environment before an `eval` call is still bound in the environment the
call leaves behind, whatever the outcome — `define` only inserts or
overwrites, so the bound-name set grows monotonically across successive
evaluations. -/
theorem claim9_env_monotone (n : Nat) (e : Expr) (env : Env) (k : Str)
    (h : (envGet env k).isSome = true) :
    (envGet (eval n e env).2 k).isSome = true :=
  (eval_envLe n).1 e env k h

/-- C9 witness: after evaluating `(define x 5)` in an environment binding
`y`, the name `y` is still bound. -/
theorem claim9_witness :
    (envGet (eval 3 (.list [.symbol "define".data, .symbol "x".data,
        .number ⟨5, 1⟩]) [("y".data, Expr.number ⟨1, 1⟩)]).2
      "y".data).isSome = true :=
  claim9_env_monotone 3 _ _ "y".data (by decide)

/-! ## Claim C8 -/

mutual

/-- The scanner consumes `p` cleanly: every string token opened in `p`
closes inside `p`, and no symbol token is still being collected when `p`
ends, so appending further input cannot change how `p` tokenizes. -/
def boundaryOk : List Char → Bool
  | [] => true
  | c :: cs =>
    if c = '(' ∨ c = ')' then boundaryOk cs
    else if c = '"' then strOk cs
    else if c.isWhitespace then boundaryOk cs
    else symOk cs

/-- In-string state of `boundaryOk`. -/
def strOk : List Char → Bool
  | [] => false
  | c :: cs => if c = '"' then boundaryOk cs else strOk cs

/-- In-symbol state of `boundaryOk`. -/
def symOk : List Char → Bool
  | [] => false
  | c :: cs =>
    if c = '(' ∨ c = ')' then boundaryOk cs
    else if c.isWhitespace then boundaryOk cs
    else symOk cs

end

mutual

/-- A cleanly consumed prefix tokenizes independently of what follows. -/
theorem tokMain_append : ∀ (p q : List Char), boundaryOk p = true →
    tokMain (p ++ q) = tokMain p ++ tokMain q
  | [], q, _ => by simp [tokMain]
  | c :: cs, q, h => by
    simp only [boundaryOk] at h
    by_cases h1 : c = '(' ∨ c = ')'
    · rw [if_pos h1] at h
      show (if c = '(' ∨ c = ')' then [c] :: tokMain (cs ++ q) else _) = _
      rw [if_pos h1, tokMain_append cs q h]
      simp only [tokMain, if_pos h1, List.cons_append]
    · rw [if_neg h1] at h
      by_cases h2 : c = '"'
      · rw [if_pos h2] at h
        show (if c = '(' ∨ c = ')' then _
          else if c = '"' then tokStr (cs ++ q) [] else _) = _
        rw [if_neg h1, if_pos h2, tokStr_append cs q [] h]
        simp only [tokMain, if_neg h1, if_pos h2]
      · rw [if_neg h2] at h
        by_cases h3 : c.isWhitespace
        · rw [if_pos h3] at h
          show (if c = '(' ∨ c = ')' then _
            else if c = '"' then _
            else if c.isWhitespace then tokMain (cs ++ q) else _) = _
          rw [if_neg h1, if_neg h2, if_pos h3, tokMain_append cs q h]
          simp only [tokMain, if_neg h1, if_neg h2, if_pos h3]
        · rw [if_neg h3] at h
          show (if c = '(' ∨ c = ')' then _
            else if c = '"' then _
            else if c.isWhitespace then _ else tokSym (cs ++ q) [c]) = _
          rw [if_neg h1, if_neg h2, if_neg h3, tokSym_append cs q [c] h]
          simp only [tokMain, if_neg h1, if_neg h2, if_neg h3]

/-- The in-string version of `tokMain_append`. -/
theorem tokStr_append : ∀ (p q : List Char) (acc : Str), strOk p = true →
    tokStr (p ++ q) acc = tokStr p acc ++ tokMain q
  | [], q, acc, h => by simp [strOk] at h
  | c :: cs, q, acc, h => by
    simp only [strOk] at h
    by_cases h2 : c = '"'
    · rw [if_pos h2] at h
      show (if c = '"' then quoted acc :: tokMain (cs ++ q) else _) = _
      rw [if_pos h2, tokMain_append cs q h]
      simp only [tokStr, if_pos h2, List.cons_append]
    · rw [if_neg h2] at h
      show (if c = '"' then _ else tokStr (cs ++ q) (acc ++ [c])) = _
      rw [if_neg h2, tokStr_append cs q (acc ++ [c]) h]
      simp only [tokStr, if_neg h2]

/-- The in-symbol version of `tokMain_append`. -/
theorem tokSym_append : ∀ (p q : List Char) (acc : Str), symOk p = true →
    tokSym (p ++ q) acc = tokSym p acc ++ tokMain q
  | [], q, acc, h => by simp [symOk] at h
  | c :: cs, q, acc, h => by
    simp only [symOk] at h
    by_cases h1 : c = '(' ∨ c = ')'
    · rw [if_pos h1] at h
      show (if c = '(' ∨ c = ')' then acc :: [c] :: tokMain (cs ++ q) else _) = _
      rw [if_pos h1, tokMain_append cs q h]
      simp only [tokSym, if_pos h1, List.cons_append]
    · rw [if_neg h1] at h
      by_cases h3 : c.isWhitespace
      · rw [if_pos h3] at h
        show (if c = '(' ∨ c = ')' then _
          else if c.isWhitespace then acc :: tokMain (cs ++ q) else _) = _
        rw [if_neg h1, if_pos h3, tokMain_append cs q h]
        simp only [tokSym, if_neg h1, if_pos h3, List.cons_append]
      · rw [if_neg h3] at h
        show (if c = '(' ∨ c = ')' then _
          else if c.isWhitespace then _
          else tokSym (cs ++ q) (acc ++ [c])) = _
        rw [if_neg h1, if_neg h3, tokSym_append cs q (acc ++ [c]) h]
        simp only [tokSym, if_neg h1, if_neg h3]

end

/-- Collecting quote-free text that runs to the end of the input still
emits the quote-wrapped token. -/
theorem tokStr_no_quote : ∀ (s : List Char) (acc : Str),
    (∀ c ∈ s, c ≠ '"') → tokStr s acc = [quoted (acc ++ s)]
  | [], acc, _ => by simp [tokStr]
  | c :: cs, acc, h => by
    have hc : c ≠ '"' := h c (by simp)
    simp only [tokStr, if_neg hc]
    rw [tokStr_no_quote cs (acc ++ [c]) (fun d hd => h d (by simp [hd]))]
    simp

/-- `atom` on a quote-wrapped token strips the quotes back off. -/
theorem atom_of_quoted (s : Str) : atom (quoted s) = .str s := by
  have hq : quoted s = ('"' :: s) ++ ['"'] := by simp [quoted]
  unfold atom
  rw [if_pos ?side]
  case side =>
    constructor
    · rfl
    · rw [hq, List.getLast?_concat]
  · rw [hq]
    simp only [List.drop_succ_cons, List.drop_zero, List.cons_append]
    rw [List.dropLast_concat]

/-- C8: tokenization never fails on an unterminated string literal: after
any cleanly tokenized prefix, a final `"` followed by quote-free text
emits the string token built from all collected characters wrapped back in
quote delimiters; consequently the parse of a lone unterminated string
literal succeeds with the corresponding `String` value. -/
theorem claim8_unterminated_string (p s : List Char)
    (hp : boundaryOk p = true) (hs : ∀ c ∈ s, c ≠ '"') :
    tokenize (p ++ '"' :: s) = tokenize p ++ [quoted s] ∧
    parse ('"' :: s) = .ok (.str s) := by
  have hts : tokenize ('"' :: s) = [quoted s] := by
    show tokStr s [] = _
    rw [tokStr_no_quote s [] hs]
    simp
  constructor
  · show tokMain (p ++ '"' :: s) = _
    rw [tokMain_append p ('"' :: s) hp]
    rw [show tokMain ('"' :: s) = tokStr s [] from rfl,
      tokStr_no_quote s [] hs]
    simp
    rfl
  · unfold parse
    rw [hts]
    have hr : readFrom (2 * ([quoted s] : List Str).length + 2) [quoted s] =
        .ok (.str s, []) := by
      show readFrom 4 [quoted s] = _
      unfold readFrom
      rw [if_neg (by simp [quoted]), if_neg (by simp [quoted]), atom_of_quoted]
    rw [hr]
    rfl

/-- C8 witness: the prefix `(x ` tokenizes cleanly, the unterminated
`"abc` still becomes the token `"abc"`, and parsing a lone `"abc`
succeeds. -/
theorem claim8_witness :
    tokenize ("(x ".data ++ '"' :: "abc".data) =
      tokenize "(x ".data ++ [quoted "abc".data] ∧
    parse ('"' :: "abc".data) = .ok (.str "abc".data) :=
  claim8_unterminated_string "(x ".data "abc".data (by decide) (by decide)

/-! ## Claim C7 -/

/-- A character that can sit inside a symbol-or-number token without being
a delimiter: not a parenthesis, not a quote, not whitespace. -/
def okChar (c : Char) : Bool := !(c = '(' || c = ')' || c = '"' || c.isWhitespace)

/-- A well-formed single-token text: nonempty and all characters plain. -/
def atomToken (t : Str) : Bool := !t.isEmpty && t.all okChar

/-- The continuation after a token: empty input or a delimiter character
(whitespace or parenthesis). -/
def stopStart : List Char → Bool
  | [] => true
  | c :: _ => c = '(' ∨ c = ')' ∨ c.isWhitespace

mutual

/-- The token list produced by tokenizing the rendering of a renderable
expression. -/
def exprTokens : Expr → List Str
  | .symbol s => [s]
  | .number q => [renderNum q]
  | .bool b => [if b then "true".data else "false".data]
  | .str s => [quoted s]
  | .list xs => ['('] :: (listTokens xs ++ [[')']])
  | .func _ _ => ["<function>".data]

/-- `exprTokens` over a list of expressions. -/
def listTokens : List Expr → List Str
  | [] => []
  | x :: xs => exprTokens x ++ listTokens xs

end

mutual

/-- The `Func`-free literal values whose canonical rendering re-tokenizes
and re-parses to the same value: a symbol must be a plain single token that
is not a boolean literal and not parseable as a float (including the
non-finite spellings); a string must contain no quote character; a number
must render to a plain token that reparses to exactly the same value —
which is Rust's round-trip guarantee for every finite `f64`, carried in
the fraction model as an explicit condition. -/
def Renderable : Expr → Bool
  | .symbol s => atomToken s && !decide (s = "true".data) &&
      !decide (s = "false".data) && (parseNum? s).isNone && !specialFloatToken s
  | .number q => atomToken (renderNum q) && decide (parseNum? (renderNum q) = some q)
  | .bool _ => true
  | .str s => s.all (fun c => !decide (c = '"'))
  | .list xs => RenderableList xs
  | .func _ _ => false

/-- `Renderable` over a list of expressions. -/
def RenderableList : List Expr → Bool
  | [] => true
  | x :: xs => Renderable x && RenderableList xs

end

/-- The four character facts packed into `okChar`. -/
theorem okChar_spec (c : Char) (h : okChar c = true) :
    ¬(c = '(') ∧ ¬(c = ')') ∧ ¬(c = '"') ∧ c.isWhitespace = false := by
  simp only [okChar, Bool.not_eq_true', Bool.or_eq_false_iff,
    decide_eq_false_iff_not] at h
  exact ⟨h.1.1.1, h.1.1.2, h.1.2, h.2⟩

/-- Splitting the head facts out of `atomToken`. -/
theorem atomToken_head (c : Char) (cs : Str) (h : atomToken (c :: cs) = true) :
    ¬(c = '(' ∨ c = ')') ∧ ¬(c = '"') ∧ ¬(c.isWhitespace = true) ∧
      cs.all okChar = true := by
  simp only [atomToken, List.isEmpty_cons, Bool.not_false, Bool.true_and,
    List.all_cons, Bool.and_eq_true] at h
  obtain ⟨hc, hcs⟩ := h
  obtain ⟨h1, h2, h3, h4⟩ := okChar_spec c hc
  exact ⟨fun ho => ho.elim h1 h2, h3, by simp [h4], hcs⟩

/-- Collecting a run of plain characters reaches exactly the next
delimiter (or the end of the input). -/
theorem tokSym_clean (t : Str) : ∀ (acc : Str) (rest : List Char),
    t.all okChar = true → stopStart rest = true →
    tokSym (t ++ rest) acc = (acc ++ t) :: tokMain rest := by
  induction t with
  | nil =>
    intro acc rest _ hrest
    match rest with
    | [] => simp [tokSym, tokMain]
    | c :: cs =>
      simp only [stopStart, decide_eq_true_eq] at hrest
      simp only [List.nil_append, List.append_nil]
      by_cases h1 : c = '(' ∨ c = ')'
      · show (if c = '(' ∨ c = ')' then acc :: [c] :: tokMain cs else _) = _
        rw [if_pos h1]
        show _ = acc :: (if c = '(' ∨ c = ')' then [c] :: tokMain cs else _)
        rw [if_pos h1]
      · have h3 : c.isWhitespace := by
          rcases hrest with h | h | h
          · exact absurd (Or.inl h) h1
          · exact absurd (Or.inr h) h1
          · exact h
        have h2 : ¬(c = '"') := fun he => by
          rw [he] at h3; exact absurd h3 (by decide)
        show (if c = '(' ∨ c = ')' then _
          else if c.isWhitespace then acc :: tokMain cs else _) = _
        rw [if_neg h1, if_pos h3]
        show _ = acc :: (if c = '(' ∨ c = ')' then _
          else if c = '"' then _
          else if c.isWhitespace then tokMain cs else _)
        rw [if_neg h1, if_neg h2, if_pos h3]
  | cons c cs ih =>
    intro acc rest hall hrest
    simp only [List.all_cons, Bool.and_eq_true] at hall
    obtain ⟨hc1, hc2, hc3, hc4⟩ := okChar_spec c hall.1
    have h1 : ¬(c = '(' ∨ c = ')') := fun ho => ho.elim hc1 hc2
    have h3 : ¬(c.isWhitespace = true) := by simp [hc4]
    show (if c = '(' ∨ c = ')' then _
      else if c.isWhitespace then _
      else tokSym (cs ++ rest) (acc ++ [c])) = _
    rw [if_neg h1, if_neg h3, ih (acc ++ [c]) rest hall.2 hrest]
    simp

/-- A plain token followed by a delimiter (or the end of input) is emitted
exactly as itself. -/
theorem tokMain_atom (t : Str) (rest : List Char)
    (ht : atomToken t = true) (hrest : stopStart rest = true) :
    tokMain (t ++ rest) = t :: tokMain rest := by
  match t, ht with
  | [], ht => simp [atomToken] at ht
  | c :: cs, ht =>
    obtain ⟨h1, h2, h3, hall⟩ := atomToken_head c cs ht
    show (if c = '(' ∨ c = ')' then _
      else if c = '"' then _
      else if c.isWhitespace then _
      else tokSym (cs ++ rest) [c]) = _
    rw [if_neg h1, if_neg h2, if_neg h3, tokSym_clean cs [c] rest hall hrest]
    rfl

/-- Collecting quote-free string contents stops at the closing quote. -/
theorem tokStr_closes (s : Str) : ∀ (acc : Str) (rest : List Char),
    (∀ c ∈ s, c ≠ '"') →
    tokStr (s ++ '"' :: rest) acc = quoted (acc ++ s) :: tokMain rest := by
  induction s with
  | nil => intro acc rest _; simp [tokStr]
  | cons c cs ih =>
    intro acc rest h
    have hc : ¬(c = '"') := h c (by simp)
    show (if c = '"' then _ else tokStr (cs ++ '"' :: rest) (acc ++ [c])) = _
    rw [if_neg hc, ih (acc ++ [c]) rest (fun d hd => h d (by simp [hd]))]
    simp

/-- A quote-wrapped token (quote-free contents) is emitted as itself. -/
theorem tokMain_quoted_pref (s : Str) (rest : List Char)
    (hs : ∀ c ∈ s, c ≠ '"') :
    tokMain (quoted s ++ rest) = quoted s :: tokMain rest := by
  have he : quoted s ++ rest = '"' :: (s ++ '"' :: rest) := by simp [quoted]
  rw [he]
  show tokStr (s ++ '"' :: rest) [] = _
  rw [tokStr_closes s [] rest hs]
  simp

mutual

/-- Tokenizing the rendering of a renderable expression, followed by a
delimiter or the end of the input, yields exactly its token list. -/
theorem display_tokens : ∀ (e : Expr) (rest : List Char),
    Renderable e = true → stopStart rest = true →
    tokMain (display e ++ rest) = exprTokens e ++ tokMain rest
  | .symbol s, rest, h, hrest => by
    simp only [Renderable, Bool.and_eq_true] at h
    show tokMain (s ++ rest) = [s] ++ tokMain rest
    rw [tokMain_atom s rest h.1.1.1.1 hrest]
    rfl
  | .number q, rest, h, hrest => by
    simp only [Renderable, Bool.and_eq_true] at h
    show tokMain (renderNum q ++ rest) = [renderNum q] ++ tokMain rest
    rw [tokMain_atom _ rest h.1 hrest]
    rfl
  | .bool b, rest, _, hrest => by
    cases b
    · show tokMain ("false".data ++ rest) = ["false".data] ++ tokMain rest
      rw [tokMain_atom _ rest (by decide) hrest]
      rfl
    · show tokMain ("true".data ++ rest) = ["true".data] ++ tokMain rest
      rw [tokMain_atom _ rest (by decide) hrest]
      rfl
  | .str s, rest, h, _ => by
    have hs : ∀ c ∈ s, c ≠ '"' := by
      simp only [Renderable, List.all_eq_true, Bool.not_eq_true',
        decide_eq_false_iff_not] at h
      exact h
    show tokMain (quoted s ++ rest) = [quoted s] ++ tokMain rest
    rw [tokMain_quoted_pref s rest hs]
    rfl
  | .list xs, rest, h, _ => by
    have hxs : RenderableList xs = true := by simpa [Renderable] using h
    have he : display (.list xs) ++ rest =
        '(' :: (joinSpace (displayList xs) ++ ')' :: rest) := by
      simp [display]
    rw [he]
    show ['('] :: tokMain (joinSpace (displayList xs) ++ ')' :: rest) = _
    rw [displayList_tokens xs rest hxs]
    have hc : tokMain (')' :: rest) = [')'] :: tokMain rest := rfl
    rw [hc]
    simp [exprTokens]
  | .func p b, rest, h, _ => by simp [Renderable] at h

/-- The list-children version of `display_tokens`: the space-joined
renderings followed by the closing parenthesis tokenize to the children's
tokens followed by the `)` token. -/
theorem displayList_tokens : ∀ (xs : List Expr) (rest : List Char),
    RenderableList xs = true →
    tokMain (joinSpace (displayList xs) ++ ')' :: rest) =
      listTokens xs ++ tokMain (')' :: rest)
  | [], rest, _ => by simp [displayList, joinSpace, listTokens]
  | [x], rest, h => by
    have hx : Renderable x = true := by
      simpa [RenderableList] using h
    have he : joinSpace (displayList [x]) = display x := rfl
    rw [he, display_tokens x (')' :: rest) hx rfl]
    simp [listTokens]
  | x :: y :: t, rest, h => by
    simp only [RenderableList, Bool.and_eq_true] at h
    have he : joinSpace (displayList (x :: y :: t)) ++ ')' :: rest =
        display x ++ ' ' :: (joinSpace (displayList (y :: t)) ++ ')' :: rest) := by
      show (display x ++ ' ' :: joinSpace (displayList (y :: t))) ++ ')' :: rest = _
      simp
    rw [he, display_tokens x
      (' ' :: (joinSpace (displayList (y :: t)) ++ ')' :: rest)) h.1 rfl]
    have hsp : tokMain (' ' :: (joinSpace (displayList (y :: t)) ++ ')' :: rest)) =
        tokMain (joinSpace (displayList (y :: t)) ++ ')' :: rest) := rfl
    rw [hsp, displayList_tokens (y :: t) rest (by simp [RenderableList, h.2.1, h.2.2])]
    simp [listTokens]

end

/-- An `atomToken` contains no quote, so it is never taken for a string
token, and it differs from the one-character parenthesis tokens. -/
theorem atomToken_not_special (t : Str) (h : atomToken t = true) :
    t.head? ≠ some '"' ∧ t ≠ ['('] ∧ t ≠ [')'] := by
  match t, h with
  | c :: cs, h =>
    obtain ⟨h1, h2, _, _⟩ := atomToken_head c cs h
    refine ⟨fun he => h2 (Option.some.inj he), ?_, ?_⟩
    · intro he
      cases he
      exact h1 (Or.inl rfl)
    · intro he
      cases he
      exact h1 (Or.inr rfl)

/-- `atom` maps a well-formed symbol token back to the symbol. -/
theorem atom_of_symbol (t : Str) (ha : atomToken t = true)
    (h1 : ¬(t = "true".data)) (h2 : ¬(t = "false".data))
    (h3 : parseNum? t = none) : atom t = .symbol t := by
  obtain ⟨hq, _, _⟩ := atomToken_not_special t ha
  unfold atom
  rw [if_neg (fun hco => hq hco.1), if_neg h1, if_neg h2, h3]

/-- `atom` maps the rendering of a round-tripping number back to the
number. -/
theorem atom_of_number (q : F) (ha : atomToken (renderNum q) = true)
    (hp : parseNum? (renderNum q) = some q) : atom (renderNum q) = .number q := by
  obtain ⟨hq, _, _⟩ := atomToken_not_special _ ha
  have h1 : ¬(renderNum q = "true".data) := fun he => by
    rw [he, (by decide : parseNum? "true".data = (none : Option F))] at hp
    exact Option.noConfusion hp
  have h2 : ¬(renderNum q = "false".data) := fun he => by
    rw [he, (by decide : parseNum? "false".data = (none : Option F))] at hp
    exact Option.noConfusion hp
  unfold atom
  rw [if_neg (fun hco => hq hco.1), if_neg h1, if_neg h2, hp]

/-- The rendering of a renderable expression starts with a token that is
not the `)` token. -/
theorem exprTokens_shape (e : Expr) (h : Renderable e = true) :
    ∃ t ts, exprTokens e = t :: ts ∧ ¬(t = [')']) := by
  cases e with
  | symbol s =>
    simp only [Renderable, Bool.and_eq_true] at h
    exact ⟨s, [], rfl, (atomToken_not_special s h.1.1.1.1).2.2⟩
  | number q =>
    simp only [Renderable, Bool.and_eq_true] at h
    exact ⟨renderNum q, [], rfl, (atomToken_not_special _ h.1).2.2⟩
  | bool b => cases b <;> exact ⟨_, [], rfl, by decide⟩
  | str s => exact ⟨quoted s, [], rfl, by simp [quoted]⟩
  | list xs => exact ⟨['('], _, rfl, by decide⟩
  | func p b => simp [Renderable] at h

/-- `read_from_tokens` on a non-parenthesis token returns its atom. -/
theorem readFrom_atom (m : Nat) (t : Str) (rest : List Str)
    (h1 : ¬(t = ['('])) (h2 : ¬(t = [')'])) :
    readFrom (m + 1) (t :: rest) = .ok (atom t, rest) := by
  simp only [readFrom]
  rw [if_neg h1, if_neg h2]

mutual

/-- The fueled `read_from_tokens` reads back exactly the expression whose
tokens lead the stream, for any fuel at least the number of those tokens. -/
theorem readFrom_roundtrip : ∀ (e : Expr), Renderable e = true →
    ∀ (fuel : Nat) (rest : List Str), (exprTokens e).length ≤ fuel →
      readFrom fuel (exprTokens e ++ rest) = .ok (e, rest)
  | .symbol s, h, fuel, rest, hf => by
    match fuel, hf with
    | m + 1, _ =>
      simp only [Renderable, Bool.and_eq_true, Bool.not_eq_true',
        decide_eq_false_iff_not, Option.isNone_iff_eq_none] at h
      obtain ⟨_, hpar, hcl⟩ := atomToken_not_special s h.1.1.1.1
      rw [show exprTokens (.symbol s) ++ rest = s :: rest from rfl,
        readFrom_atom m s rest hpar hcl,
        atom_of_symbol s h.1.1.1.1 h.1.1.1.2 h.1.1.2 h.1.2]
  | .number q, h, fuel, rest, hf => by
    match fuel, hf with
    | m + 1, _ =>
      simp only [Renderable, Bool.and_eq_true, decide_eq_true_eq] at h
      obtain ⟨_, hpar, hcl⟩ := atomToken_not_special _ h.1
      rw [show exprTokens (.number q) ++ rest = renderNum q :: rest from rfl,
        readFrom_atom m _ rest hpar hcl, atom_of_number q h.1 h.2]
  | .bool b, h, fuel, rest, hf => by
    match fuel, hf with
    | m + 1, _ => cases b <;> rfl
  | .str s, h, fuel, rest, hf => by
    match fuel, hf with
    | m + 1, _ =>
      rw [show exprTokens (.str s) ++ rest = quoted s :: rest from rfl,
        readFrom_atom m _ rest (by simp [quoted]) (by simp [quoted]),
        atom_of_quoted]
  | .list xs, h, fuel, rest, hf => by
    have hxs : RenderableList xs = true := by simpa [Renderable] using h
    match fuel, hf with
    | m + 1, hf =>
      have he : exprTokens (.list xs) ++ rest =
          ['('] :: (listTokens xs ++ [')'] :: rest) := by
        simp [exprTokens]
      rw [he]
      have hm : (listTokens xs).length + 1 ≤ m := by
        simp only [exprTokens, List.length_cons, List.length_append,
          List.length_singleton] at hf
        omega
      simp only [readFrom]
      rw [if_pos trivial, readList_roundtrip xs hxs m rest hm]
  | .func p b, h, fuel, rest, hf => by simp [Renderable] at h

/-- The loop part of the round trip: the children's tokens followed by the
`)` token read back as exactly the children. -/
theorem readList_roundtrip : ∀ (xs : List Expr), RenderableList xs = true →
    ∀ (fuel : Nat) (rest : List Str), (listTokens xs).length + 1 ≤ fuel →
      readList fuel (listTokens xs ++ [')'] :: rest) = .ok (xs, rest)
  | [], _, fuel, rest, hf => by
    match fuel, hf with
    | m + 1, _ => rfl
  | x :: xs', h, fuel, rest, hf => by
    simp only [RenderableList, Bool.and_eq_true] at h
    obtain ⟨t, ts, het, hne⟩ := exprTokens_shape x h.1
    match fuel, hf with
    | m + 1, hf =>
      have hlen : (exprTokens x).length + (listTokens xs').length + 1 ≤ m + 1 := by
        simp only [listTokens, List.length_append] at hf
        omega
      have hx1 : 1 ≤ (exprTokens x).length := by
        rw [het]; simp
      have he : listTokens (x :: xs') ++ [')'] :: rest =
          t :: (ts ++ (listTokens xs' ++ [')'] :: rest)) := by
        show (exprTokens x ++ listTokens xs') ++ [')'] :: rest = _
        rw [het]
        simp
      rw [he]
      show (if t = [')'] then Except.ok (([] : List Expr), ts ++ (listTokens xs' ++ [')'] :: rest))
        else match readFrom m (t :: (ts ++ (listTokens xs' ++ [')'] :: rest))) with
          | .error m2 => .error m2
          | .ok p =>
            match readList m p.2 with
            | .error m2 => .error m2
            | .ok r => Except.ok (p.1 :: r.1, r.2)) = _
      rw [if_neg hne]
      have h1 : readFrom m (t :: (ts ++ (listTokens xs' ++ [')'] :: rest))) =
          .ok (x, listTokens xs' ++ [')'] :: rest) := by
        have hr := readFrom_roundtrip x h.1 m (listTokens xs' ++ [')'] :: rest)
          (by omega)
        rw [het] at hr
        simpa using hr
      rw [h1]
      have h2 := readList_roundtrip xs' h.2 m rest (by omega)
      simp only [h2]

end

/-- C7 (amended): rendering a `Func`-free literal through `Display` and
parsing the rendered text returns `Ok` of exactly the same value, provided
the literal is renderable: its symbols are plain single tokens that are
not boolean or float literals, its strings contain no quote character, and
its numbers reparse from their rendering to the same value (Rust's
documented round-trip guarantee for every finite `f64`). -/
theorem claim7_roundtrip (e : Expr) (h : Renderable e = true) :
    parse (display e) = .ok e := by
  have ht : tokenize (display e) = exprTokens e := by
    have hd := display_tokens e [] h rfl
    rw [List.append_nil] at hd
    show tokMain (display e) = _
    rw [hd]
    show exprTokens e ++ tokMain [] = _
    simp [tokMain]
  unfold parse
  rw [ht]
  have hr := readFrom_roundtrip e h (2 * (exprTokens e).length + 2) []
    (by omega)
  rw [List.append_nil] at hr
  rw [hr]
  rfl

/-- C7 counterexample: the `Symbol` value named `true` renders as the text
`true`, which reparses as the boolean literal, not as the symbol — so
parse-after-render is not the identity on all `Func`-free literals. -/
theorem claim7_counterexample :
    parse (display (.symbol "true".data)) = .ok (.bool true) ∧
    Expr.bool true ≠ .symbol "true".data := by
  exact ⟨by decide, by decide⟩

/-- C7 witness: a list mixing a symbol, a number, a string with a space,
and a boolean renders and reparses to exactly itself. -/
theorem claim7_witness :
    parse (display (.list [.symbol "abc".data, .number ⟨5, 1⟩,
        .str "hi there".data, .bool true])) =
      .ok (.list [.symbol "abc".data, .number ⟨5, 1⟩,
        .str "hi there".data, .bool true]) :=
  claim7_roundtrip _ (by decide)

end MiniLisp
